import Mathlib

/-!
# Verification of the FlipTools credential-capture core

Shallow embedding of `src/src-tauri/src/lib.rs` (the Depop login / token
capture subsystem): the `url_decode` helper, the token plausibility check
of `open_depop_login`'s accept loop, the request-line parser, the accept
loop itself, and the session-coordinator commands `open_depop_login`,
`scan_depop_auth` and `navigate_depop_window`.

Strings are modelled as `List Char` (the `char`s of a Rust `String`);
where the Rust code works on UTF-8 bytes (`str::len`, `url_decode`) we
pass through an explicit UTF-8 encoder so byte positions and byte lengths
are faithful.
-/

set_option autoImplicit false

deriving instance DecidableEq for Except

namespace FlipTools

/-- Rust's `char::is_whitespace` (the Unicode `White_Space` property). -/
def rustIsWhitespace (c : Char) : Bool :=
  let n := c.toNat
  (0x09 ≤ n && n ≤ 0x0D) || n = 0x20 || n = 0x85 || n = 0xA0 || n = 0x1680 ||
  (0x2000 ≤ n && n ≤ 0x200A) || n = 0x2028 || n = 0x2029 || n = 0x202F ||
  n = 0x205F || n = 0x3000

/-- UTF-8 encoding of a single scalar value, as a list of bytes. -/
def utf8EncodeChar (c : Char) : List Nat :=
  let n := c.toNat
  if n < 0x80 then [n]
  else if n < 0x800 then [0xC0 + n / 64, 0x80 + n % 64]
  else if n < 0x10000 then
    [0xE0 + n / 4096, 0x80 + (n / 64) % 64, 0x80 + n % 64]
  else
    [0xF0 + n / 262144, 0x80 + (n / 4096) % 64, 0x80 + (n / 64) % 64, 0x80 + n % 64]

/-- UTF-8 encoding of a string (its byte representation in a Rust `String`). -/
def utf8Encode (s : List Char) : List Nat :=
  (s.map utf8EncodeChar).flatten

/-- Rust's `str::len`: the length in UTF-8 bytes. -/
def rustLen (s : List Char) : Nat :=
  (utf8Encode s).length

/-- The value of an ASCII hex-digit byte, as accepted by
`u8::from_str_radix(_, 16)`: `0`-`9`, `a`-`f`, `A`-`F`. Any byte ≥ 0x80 is
not a hex digit (and two such bytes are either invalid UTF-8, which
`from_utf8(..).unwrap_or("")` turns into the empty string, or decode to a
non-digit char — both parse to `Err`). -/
def hexDigitVal (b : Nat) : Option Nat :=
  if 48 ≤ b && b ≤ 57 then some (b - 48)
  else if 97 ≤ b && b ≤ 102 then some (b - 87)
  else if 65 ≤ b && b ≤ 70 then some (b - 55)
  else none

/-- `u8::from_str_radix(s, 16)` applied to the two-byte slice
`&bytes[i+1..i+3]` in `url_decode`: an optional leading `+` sign followed
by hex digits.  With exactly two bytes this is either two hex digits, or a
`+` followed by one hex digit.  (A `-` sign is rejected for `u8`.) -/
def hexPairVal (b1 b2 : Nat) : Option Nat :=
  if b1 = 43 then hexDigitVal b2
  else
    match hexDigitVal b1, hexDigitVal b2 with
    | some d1, some d2 => some (16 * d1 + d2)
    | _, _ => none

/-- `url_decode` from `lib.rs` (lines 170–191), on the UTF-8 bytes of its
input: a `%` followed by at least two more bytes whose 2-byte slice parses
as hex is decoded to that byte pushed `as char`; a `+` becomes a space;
every other byte (including a `%` whose sequence does not parse, which the
Rust code reaches by falling through the failed `if let`) is pushed
`as char` literally. -/
def url_decode : List Nat → List Char
  | [] => []
  | 37 :: b1 :: b2 :: rest =>
    match hexPairVal b1 b2 with
    | some v => Char.ofNat v :: url_decode rest
    | none => '%' :: url_decode (b1 :: b2 :: rest)
  | 43 :: rest => ' ' :: url_decode rest
  | b :: rest => Char.ofNat b :: url_decode rest

/-- `url_decode` applied to a string (the Rust function takes `&str` and
iterates its UTF-8 bytes). -/
def urlDecodeStr (s : List Char) : List Char :=
  url_decode (utf8Encode s)

/-- The tag carried by identifier-style credentials: `"DEPOP_WEB:"`. -/
def depopTagStr : List Char :=
  ['D', 'E', 'P', 'O', 'P', '_', 'W', 'E', 'B', ':']

/-- The token acceptance test of the accept loop (`lib.rs` lines 263–266):
`tok.starts_with("DEPOP_WEB:") && tok.len() > "DEPOP_WEB:".len()`, or
`tok.len() >= 20`, and in either case `!tok.chars().any(|c| c.is_whitespace())`. -/
def isValidToken (tok : List Char) : Bool :=
  let is_web_token := depopTagStr.isPrefixOf tok && decide (rustLen depopTagStr < rustLen tok)
  let is_bearer := decide (20 ≤ rustLen tok)
  (is_web_token || is_bearer) && !(tok.any rustIsWhitespace)

/-! ## Request-line parsing (`lib.rs` lines 253–260) -/

/-- Accumulator form of Rust's `str::split_whitespace`: splits at runs of
Unicode whitespace, producing no empty items. -/
def splitWsAux : List Char → List Char → List (List Char)
  | [], acc => if acc.isEmpty then [] else [acc.reverse]
  | c :: rest, acc =>
    if rustIsWhitespace c then
      if acc.isEmpty then splitWsAux rest [] else acc.reverse :: splitWsAux rest []
    else splitWsAux rest (c :: acc)

/-- Rust's `str::split_whitespace`. -/
def splitWs (s : List Char) : List (List Char) :=
  splitWsAux s []

/-- Accumulator form of Rust's `str::split(sep)` for a `char` separator:
keeps empty pieces, always returns at least one piece. -/
def splitCharAux (sep : Char) : List Char → List Char → List (List Char)
  | [], acc => [acc.reverse]
  | c :: rest, acc =>
    if c = sep then acc.reverse :: splitCharAux sep rest []
    else splitCharAux sep rest (c :: acc)

/-- Rust's `str::split(sep)` for a `char` separator. -/
def splitChar (sep : Char) (s : List Char) : List (List Char) :=
  splitCharAux sep s []

/-- Strip one trailing `'\r'`, as Rust's `lines()` does to each piece
produced by splitting on `'\n'`. -/
def stripTrailingCR (l : List Char) : List Char :=
  if l.getLast? = some '\r' then l.dropLast else l

/-- `req.lines().next()`: Rust `lines()` splits with a terminating `'\n'`
(so the empty string yields no line at all) and strips a trailing `'\r'`
from each line. -/
def firstLineOpt (req : List Char) : Option (List Char) :=
  if req = [] then none
  else some (stripTrailingCR (req.takeWhile (fun c => c ≠ '\n')))

/-- The token extraction of the accept loop (`lib.rs` lines 255–260):
from the first line, take the second whitespace-separated field, take the
text between its first and second `'?'`, find the first `'&'`-separated
piece that starts with `"t="`, and `url_decode` everything after the
`"t="`. -/
def parseToken (req : List Char) : Option (List Char) :=
  (firstLineOpt req).bind fun line =>
    ((splitWs line).get? 1).bind fun path =>
      ((splitChar '?' path).get? 1).bind fun q =>
        (((splitChar '&' q).find? (fun p => ['t', '='].isPrefixOf p)).map
          (fun p => urlDecodeStr (p.drop 2)))

/-! ## The accept loop (`lib.rs` lines 230–281)

Each iteration of the loop observes one of four events: the shutdown
signal resolving first in the `select!`, `listener.accept()` returning
`Err` (which breaks the loop), a connection whose `read` fails or returns
`0` bytes (which `continue`s), or a connection whose read succeeds with
the given data (the `from_utf8_lossy` view of the bytes read). -/
inductive ConnEvent where
  /-- The `shutdown_rx` branch of the `select!` resolves: `break`. -/
  | shutdown : ConnEvent
  /-- `listener.accept()` returns `Err(_)`: `break`. -/
  | acceptFail : ConnEvent
  /-- `stream.read` returns `Err` or `Ok(0)`: `continue`. -/
  | readFail : ConnEvent
  /-- A successful read of `data` (as a string) from the connection. -/
  | connOk (data : List Char) : ConnEvent
deriving DecidableEq

/-- The fixed response written back on every connection whose read
succeeds, before any parsing (`lib.rs` lines 248–250). -/
def resp200 : List Char :=
  "HTTP/1.1 200 OK\r\nAccess-Control-Allow-Origin: *\r\nContent-Length: 0\r\nConnection: close\r\n\r\n".data

/-- The observable outcome of running the accept loop over a sequence of
events. -/
structure SrvOut where
  /-- Tokens emitted via `app.emit("depop-token", tok)`, in order. -/
  emits : List (List Char)
  /-- The responses written back, one per connection that was read. -/
  responses : List (List Char)
  /-- Events never examined because the loop already exited. -/
  remaining : List ConnEvent
  /-- Whether a delayed close of the login window was scheduled (the
  `tokio::spawn` + 400 ms sleep following a successful emission). -/
  winCloseScheduled : Bool
deriving DecidableEq

/-- One run of the accept loop (`lib.rs` lines 230–281) over a sequence of
events: `shutdown` and `acceptFail` break; a failed read continues; a
successful read always writes `resp200`, then parses the token from the
request and, when a token is present and passes `isValidToken`, emits it,
schedules the delayed window close, and breaks out of the loop. -/
def srvRun : List ConnEvent → SrvOut
  | [] => ⟨[], [], [], false⟩
  | ConnEvent.shutdown :: rest => ⟨[], [], rest, false⟩
  | ConnEvent.acceptFail :: rest => ⟨[], [], rest, false⟩
  | ConnEvent.readFail :: rest => srvRun rest
  | ConnEvent.connOk data :: rest =>
    match parseToken data with
    | some tok =>
      if isValidToken tok then ⟨[tok], [resp200], rest, true⟩
      else
        let o := srvRun rest
        ⟨o.emits, resp200 :: o.responses, o.remaining, o.winCloseScheduled⟩
    | none =>
      let o := srvRun rest
      ⟨o.emits, resp200 :: o.responses, o.remaining, o.winCloseScheduled⟩

/-! ## Session coordinator (`lib.rs` lines 193–. . ., 506–646)

The shared `DepopState` (`port`, `shutdown_tx`) together with the login
window and the spawned accept-loop tasks, abstracted into one state
record.  Accept-loop tasks are identified by the `Nat` at which they were
spawned; a task is `listening` while its loop runs, `captured` once it
emitted a token and broke, and `cancelled` once it broke without
emitting (shutdown signal received, or `accept()` failed). -/

/-- Status of one spawned accept-loop task. -/
inductive SrvStatus where
  | listening : SrvStatus
  | captured : SrvStatus
  | cancelled : SrvStatus
deriving DecidableEq

/-- The coordinator state: the `DepopState` fields (`port`,
`shutdown_tx`), the set of spawned accept-loop tasks with their status,
a counter supplying fresh task ids, and the `"depop-login"` window
(`some url` when open, showing `url`). -/
structure AppState where
  port : Option Nat
  shutdownTx : Option Nat
  servers : List (Nat × SrvStatus)
  nextId : Nat
  win : Option (List Char)
deriving DecidableEq

/-- The state at application start: no port, no sender, no tasks, no
login window. -/
def initState : AppState :=
  ⟨none, none, [], 0, none⟩

/-- The URL the login window is opened at (`lib.rs` line 489). -/
def depopLoginUrl : List Char :=
  "https://www.depop.com/login/".data

/-- Task `id`'s accept loop breaking out: if it is still listening it
moves to the given terminal status. -/
def setBroken (s' : SrvStatus) (id : Nat) (servers : List (Nat × SrvStatus)) :
    List (Nat × SrvStatus) :=
  servers.map fun e =>
    if e.1 = id && e.2 == SrvStatus.listening then (e.1, s') else e

/-- Receipt of the cancellation signal by task `id`: if it is still
listening its loop breaks without emitting. -/
def cancelSrv (id : Nat) (servers : List (Nat × SrvStatus)) : List (Nat × SrvStatus) :=
  setBroken SrvStatus.cancelled id servers

/-- The prelude of `open_depop_login` (`lib.rs` lines 197–209), run before
the bind: close any stale login window, then take the stored
`shutdown_tx` (leaving `None`) and send on it, cancelling the previous
accept loop. -/
def openPrelude (st : AppState) : AppState :=
  let st := { st with win := none }
  match st.shutdownTx with
  | some id => { st with shutdownTx := none, servers := cancelSrv id st.servers }
  | none => st

/-- `open_depop_login` (`lib.rs` lines 194–502) when the bind succeeds on
port `newPort`: after the prelude, bind the listener, store the port,
store the new `shutdown_tx`, spawn the accept-loop task, and open the
login window at the Depop login URL. -/
def open_depop_login (st : AppState) (newPort : Nat) : AppState :=
  let st := openPrelude st
  { st with
    port := some newPort,
    shutdownTx := some st.nextId,
    servers := (st.nextId, SrvStatus.listening) :: st.servers,
    nextId := st.nextId + 1,
    win := some depopLoginUrl }

/-- `scan_depop_auth` (`lib.rs` lines 507–627): read the stored port,
failing if none was ever stored; require the login window to be open,
failing otherwise; on success `eval` the manual scan script parameterized
by the port.  The returned action is the port the script is pointed at;
the state is never written. -/
def scan_depop_auth (st : AppState) : Except String Nat × AppState :=
  match st.port with
  | none => (Except.error "Token server not running — click Connect first", st)
  | some p =>
    match st.win with
    | none => (Except.error "Depop login window is not open", st)
    | some _ => (Except.ok p, st)

/-- The literal `"https://"`. -/
def httpsStr : List Char :=
  ['h', 't', 't', 'p', 's', ':', '/', '/']

/-- Rust's `str::trim_start_matches("https://")`: repeatedly strip the
literal pattern `"https://"` from the front while it matches. -/
def trimHttps : List Char → List Char
  | 'h' :: 't' :: 't' :: 'p' :: 's' :: ':' :: '/' :: '/' :: rest => trimHttps rest
  | s => s

/-- The domain check of `navigate_depop_window` (`lib.rs` lines 633–636):
the URL starts with `"https://"`, and the text of
`url.trim_start_matches("https://")` up to the first `'/'` equals
`"depop.com"` or ends with `".depop.com"`. -/
def is_depop_url (url : List Char) : Bool :=
  httpsStr.isPrefixOf url &&
    (let host := ((splitChar '/' (trimHttps url)).headD [])
     host == "depop.com".data || ".depop.com".data.isSuffixOf host)

/-- `navigate_depop_window` (`lib.rs` lines 630–646): reject any URL
failing `is_depop_url`; then require the login window to be open; on
success `eval` `window.location.href = url`, moving the window to
`url`. -/
def navigate_depop_window (st : AppState) (url : List Char) : Except String Unit × AppState :=
  if is_depop_url url then
    match st.win with
    | none => (Except.error "Depop login window is not open", st)
    | some _ => (Except.ok (), { st with win := some url })
  else
    (Except.error "URL must be a depop.com URL", st)

/-- The coordinator's transition relation: opening a session (bind
succeeding at some port, or the bind failing after the prelude ran), an
accept-loop task capturing a token and breaking (which also schedules the
login-window close), a listening task stopping without emitting
(cancellation signal or `accept()` error), navigation, and the login
window closing. -/
inductive Step : AppState → AppState → Prop where
  | openOk (st : AppState) (p : Nat) : Step st (open_depop_login st p)
  | openBindFail (st : AppState) : Step st (openPrelude st)
  | capture (st : AppState) (id : Nat) (_h : (id, SrvStatus.listening) ∈ st.servers) :
      Step st { st with servers := setBroken SrvStatus.captured id st.servers }
  | stop (st : AppState) (id : Nat) :
      Step st { st with servers := cancelSrv id st.servers }
  | nav (st : AppState) (url : List Char) : Step st (navigate_depop_window st url).2
  | closeWin (st : AppState) : Step st { st with win := none }

/-- States reachable from application start. -/
def Reachable (st : AppState) : Prop :=
  Relation.ReflTransGen Step initState st

/-- Number of accept-loop tasks currently listening. -/
def listeningCount (st : AppState) : Nat :=
  (st.servers.filter (fun e => e.2 == SrvStatus.listening)).length

/-! ## Spec-side definitions

Definitions written from the specification's words, to be compared with
the code-derived definitions above. -/

/-- The §4.1 plausibility rule exactly as the spec states it: `s` starts
with the tag and has a non-empty, whitespace-free remainder, or `s` has
length ≥ 20 and contains no whitespace (length read as the code's notion
of string length, i.e. UTF-8 bytes). -/
def specAccepts (s : List Char) : Prop :=
  (depopTagStr.isPrefixOf s = true ∧ s.drop depopTagStr.length ≠ [] ∧
    ∀ c ∈ s.drop depopTagStr.length, rustIsWhitespace c = false)
  ∨ (20 ≤ rustLen s ∧ ∀ c ∈ s, rustIsWhitespace c = false)

instance (s : List Char) : Decidable (specAccepts s) := by
  unfold specAccepts; infer_instance

/-- Modelled from the spec (§3, Credential): the classification of a
captured raw value by the host application, which is not part of the Rust
source (the server emits the raw string): a value carrying the
`"DEPOP_WEB:"` tag is a `TaggedIdentifier` whose value is the remainder;
anything else is `OpaqueOrBearer`. -/
inductive CredKind where
  | OpaqueOrBearer : CredKind
  | TaggedIdentifier : CredKind
deriving DecidableEq

/-- Modelled from the spec (§3, Credential): kind and carried value of a
captured raw string. -/
def classifyCred (raw : List Char) : CredKind × List Char :=
  if depopTagStr.isPrefixOf raw then
    (CredKind.TaggedIdentifier, raw.drop depopTagStr.length)
  else
    (CredKind.OpaqueOrBearer, raw)

/-- Standard URL host extraction, following the claim's words "url is on
the target site's domain (depop.com or a subdomain of it, over https)":
after the `https://` scheme, the authority runs to the first `'/'`, `'?'`
or `'#'`; the host is the authority with any userinfo (up to the last
`'@'`) and any `':'`-introduced port removed. -/
def specHostOf (url : List Char) : List Char :=
  let rest := url.drop httpsStr.length
  let auth := rest.takeWhile (fun c => c ≠ '/' && c ≠ '?' && c ≠ '#')
  let afterUser := (splitChar '@' auth).getLastD []
  afterUser.takeWhile (fun c => c ≠ ':')

/-- The claim's notion "url is on the target site's domain, over https":
scheme `https`, and the standard host is `depop.com` or ends with
`.depop.com`. -/
def onDepopDomain (url : List Char) : Prop :=
  httpsStr.isPrefixOf url = true ∧
    (specHostOf url = "depop.com".data ∨
      ".depop.com".data.isSuffixOf (specHostOf url) = true)

instance (url : List Char) : Decidable (onDepopDomain url) := by
  unfold onDepopDomain; infer_instance

/-- Characters left unencoded by JavaScript's `encodeURIComponent`:
letters, digits, and `- _ . ! ~ * ' ( )`. -/
def uriUnreserved (c : Char) : Bool :=
  let n := c.toNat
  (65 ≤ n && n ≤ 90) || (97 ≤ n && n ≤ 122) || (48 ≤ n && n ≤ 57) ||
    c = '-' || c = '_' || c = '.' || c = '!' || c = '~' || c = '*' ||
    c = '\'' || c = '(' || c = ')'

/-- Upper-case hex digit for a value < 16. -/
def hexDigitUpper (n : Nat) : Char :=
  if n < 10 then Char.ofNat (48 + n) else Char.ofNat (55 + n)

/-- Modelled from the spec: the standard percent-encoding of one ASCII
character as produced by JavaScript's `encodeURIComponent` (used by the
injected script, whose execution environment is outside the Rust
source): unreserved characters stand for themselves, every other
character becomes `%` followed by two upper-case hex digits. -/
def pctEncodeChar (c : Char) : List Char :=
  if uriUnreserved c then [c]
  else ['%', hexDigitUpper (c.toNat / 16), hexDigitUpper (c.toNat % 16)]

/-- Modelled from the spec: `encodeURIComponent` on an ASCII string. -/
def pctEncode (s : List Char) : List Char :=
  (s.map pctEncodeChar).flatten

/-! ## Helper lemmas -/

theorem utf8Encode_append (a b : List Char) :
    utf8Encode (a ++ b) = utf8Encode a ++ utf8Encode b := by
  simp [utf8Encode]

theorem rustLen_append (a b : List Char) :
    rustLen (a ++ b) = rustLen a + rustLen b := by
  simp [rustLen, utf8Encode_append]

theorem utf8EncodeChar_ne_nil (c : Char) : utf8EncodeChar c ≠ [] := by
  unfold utf8EncodeChar
  dsimp only
  split
  · simp
  · split
    · simp
    · split <;> simp

theorem rustLen_eq_zero {s : List Char} : rustLen s = 0 ↔ s = [] := by
  constructor
  · intro h
    cases s with
    | nil => rfl
    | cons c t =>
      exfalso
      have : utf8Encode (c :: t) = [] := List.length_eq_zero.mp h
      have hc : utf8EncodeChar c ++ utf8Encode t = [] := by
        simpa [utf8Encode] using this
      exact utf8EncodeChar_ne_nil c (List.append_eq_nil.mp hc).1
  · intro h; subst h; rfl

theorem eq_tag_append_drop {s : List Char}
    (h : depopTagStr.isPrefixOf s = true) :
    s = depopTagStr ++ s.drop depopTagStr.length := by
  have hp : depopTagStr <+: s := List.isPrefixOf_iff_prefix.mp h
  have ht : depopTagStr = s.take depopTagStr.length := List.prefix_iff_eq_take.mp hp
  conv_lhs => rw [← List.take_append_drop depopTagStr.length s]
  rw [← ht]

theorem depopTag_not_ws : ∀ c ∈ depopTagStr, rustIsWhitespace c = false := by
  decide

/-- C1. The token acceptance test of the accept loop agrees with the §4.1
plausibility rule exactly as the spec states it: accepted iff the
candidate starts with the `"DEPOP_WEB:"` tag with a non-empty,
whitespace-free remainder, or has length ≥ 20 and no whitespace; every
other string is rejected. -/
theorem C1_token_check_iff_spec (s : List Char) :
    isValidToken s = true ↔ specAccepts s := by
  have hLen : rustLen depopTagStr = 10 := by decide
  have hTagLen : depopTagStr.length = 10 := by decide
  simp only [isValidToken, specAccepts, Bool.and_eq_true, Bool.or_eq_true,
    decide_eq_true_eq, Bool.not_eq_true', List.any_eq_false, Bool.not_eq_true]
  constructor
  · rintro ⟨hbranch, hws⟩
    rcases hbranch with ⟨hpre, hlt⟩ | hlen
    · left
      refine ⟨hpre, ?_, ?_⟩
      · intro hnil
        have hsplit := eq_tag_append_drop hpre
        rw [hnil, List.append_nil] at hsplit
        rw [hsplit] at hlt
        exact lt_irrefl _ hlt
      · intro c hc
        exact hws c (List.mem_of_mem_drop hc)
    · right
      exact ⟨hlen, hws⟩
  · rintro (⟨hpre, hnil, hwsrem⟩ | ⟨hlen, hws⟩)
    · have hsplit := eq_tag_append_drop hpre
      have hws : ∀ c ∈ s, rustIsWhitespace c = false := by
        intro c hc
        rw [hsplit] at hc
        rcases List.mem_append.mp hc with h | h
        · exact depopTag_not_ws c h
        · exact hwsrem c h
      refine ⟨Or.inl ⟨hpre, ?_⟩, hws⟩
      have hpos : 0 < rustLen (s.drop depopTagStr.length) := by
        rcases Nat.eq_zero_or_pos (rustLen (s.drop depopTagStr.length)) with h | h
        · exact absurd (rustLen_eq_zero.mp h) hnil
        · exact h
      calc rustLen depopTagStr
          = 10 := hLen
        _ < 10 + rustLen (s.drop depopTagStr.length) := by omega
        _ = rustLen s := by
            conv_rhs => rw [hsplit]
            rw [rustLen_append, hLen]
    · exact ⟨Or.inr hlen, hws⟩

/-- Witness for C1 at concrete tokens: both directions of the
equivalence applied to a tagged identifier and to a long opaque token. -/
theorem C1_token_check_iff_spec_witness :
    specAccepts "DEPOP_WEB:alice".data ∧
    isValidToken "eyJhbGciOiJIUzI1NiIsInR5cCI6IkpXVCJ9".data = true :=
  ⟨(C1_token_check_iff_spec "DEPOP_WEB:alice".data).mp (by decide),
   (C1_token_check_iff_spec "eyJhbGciOiJIUzI1NiIsInR5cCI6IkpXVCJ9".data).mpr
     (by decide)⟩

theorem srvRun_connOk_valid {data tok : List Char} {rest : List ConnEvent}
    (h1 : parseToken data = some tok) (h2 : isValidToken tok = true) :
    srvRun (ConnEvent.connOk data :: rest) = ⟨[tok], [resp200], rest, true⟩ := by
  simp [srvRun, h1, h2]

theorem srvRun_connOk_invalid {data tok : List Char} {rest : List ConnEvent}
    (h1 : parseToken data = some tok) (h2 : isValidToken tok = false) :
    srvRun (ConnEvent.connOk data :: rest) =
      ⟨(srvRun rest).emits, resp200 :: (srvRun rest).responses,
        (srvRun rest).remaining, (srvRun rest).winCloseScheduled⟩ := by
  simp [srvRun, h1, h2]

theorem srvRun_connOk_noTok {data : List Char} {rest : List ConnEvent}
    (h1 : parseToken data = none) :
    srvRun (ConnEvent.connOk data :: rest) =
      ⟨(srvRun rest).emits, resp200 :: (srvRun rest).responses,
        (srvRun rest).remaining, (srvRun rest).winCloseScheduled⟩ := by
  simp [srvRun, h1]

/-- C2. At most one token is ever emitted over any sequence of inbound
events, and an emission happens only at a connection whose parsed
candidate passes validation, at which point the accept loop exits: every
event after that connection is left unexamined (`remaining`), so no later
connection is accepted or can cause a second emission. -/
theorem C2_at_most_one_emission (evs : List ConnEvent) :
    (srvRun evs).emits.length ≤ 1 ∧
    ∀ tok, (srvRun evs).emits = [tok] →
      ∃ pre data post, evs = pre ++ ConnEvent.connOk data :: post ∧
        parseToken data = some tok ∧ isValidToken tok = true ∧
        (srvRun evs).remaining = post := by
  induction evs with
  | nil =>
    exact ⟨by simp [srvRun], fun tok h => by simp [srvRun] at h⟩
  | cons ev rest ih =>
    cases ev with
    | shutdown =>
      exact ⟨by simp [srvRun], fun tok h => by simp [srvRun] at h⟩
    | acceptFail =>
      exact ⟨by simp [srvRun], fun tok h => by simp [srvRun] at h⟩
    | readFail =>
      have he : srvRun (ConnEvent.readFail :: rest) = srvRun rest := by
        simp [srvRun]
      refine ⟨by rw [he]; exact ih.1, fun tok h => ?_⟩
      rw [he] at h
      obtain ⟨pre, data, post, hsplit, hp, hv, hrem⟩ := ih.2 tok h
      exact ⟨ConnEvent.readFail :: pre, data, post, by rw [hsplit]; rfl, hp, hv,
        by rw [he]; exact hrem⟩
    | connOk data =>
      cases hp : parseToken data with
      | some tok' =>
        cases hv : isValidToken tok' with
        | true =>
          rw [srvRun_connOk_valid hp hv]
          refine ⟨by simp, fun tok h => ?_⟩
          simp only [List.cons.injEq, and_true] at h
          exact ⟨[], data, rest, rfl, h ▸ hp, h ▸ hv, rfl⟩
        | false =>
          rw [srvRun_connOk_invalid hp hv]
          refine ⟨ih.1, fun tok h => ?_⟩
          obtain ⟨pre, d, post, hsplit, hp', hv', hrem⟩ := ih.2 tok h
          exact ⟨ConnEvent.connOk data :: pre, d, post, by rw [hsplit]; rfl, hp', hv', hrem⟩
      | none =>
        rw [srvRun_connOk_noTok hp]
        refine ⟨ih.1, fun tok h => ?_⟩
        obtain ⟨pre, d, post, hsplit, hp', hv', hrem⟩ := ih.2 tok h
        exact ⟨ConnEvent.connOk data :: pre, d, post, by rw [hsplit]; rfl, hp', hv', hrem⟩

/-- Witness for C2 at a concrete event sequence: a valid token arrives on
the second connection, the loop exits there, and the two later
connections (one of which carries another valid candidate) are left
unprocessed. -/
theorem C2_at_most_one_emission_witness :
    ∃ pre data post,
      [ConnEvent.connOk "GET /token?t=x HTTP/1.1".data,
       ConnEvent.connOk "GET /token?t=DEPOP_WEB:alice HTTP/1.1".data,
       ConnEvent.readFail,
       ConnEvent.connOk "GET /token?t=DEPOP_WEB:bob HTTP/1.1".data] =
        pre ++ ConnEvent.connOk data :: post ∧
      parseToken data = some "DEPOP_WEB:alice".data ∧
      isValidToken "DEPOP_WEB:alice".data = true ∧
      (srvRun [ConnEvent.connOk "GET /token?t=x HTTP/1.1".data,
       ConnEvent.connOk "GET /token?t=DEPOP_WEB:alice HTTP/1.1".data,
       ConnEvent.readFail,
       ConnEvent.connOk "GET /token?t=DEPOP_WEB:bob HTTP/1.1".data]).remaining = post :=
  (C2_at_most_one_emission _).2 _ (by decide)

/-- C5. For a connection whose data yields a candidate `tok`, the server
emits iff the percent-decoded candidate passes the validation rule: on
success it emits exactly that token, writes the fixed response, schedules
the delayed window close and exits the loop (all later events left in
`remaining`); on failure it emits nothing for this connection and the
loop continues with the remaining events. -/
theorem C5_emit_iff_valid (data tok : List Char) (rest : List ConnEvent)
    (hp : parseToken data = some tok) :
    (isValidToken tok = true →
      srvRun (ConnEvent.connOk data :: rest) = ⟨[tok], [resp200], rest, true⟩) ∧
    (isValidToken tok = false →
      srvRun (ConnEvent.connOk data :: rest) =
        ⟨(srvRun rest).emits, resp200 :: (srvRun rest).responses,
          (srvRun rest).remaining, (srvRun rest).winCloseScheduled⟩) :=
  ⟨fun hv => srvRun_connOk_valid hp hv, fun hv => srvRun_connOk_invalid hp hv⟩

/-- Witness for C5: a valid tagged candidate is emitted and stops the
loop; an 8-character candidate is dropped and the loop continues into the
shutdown event. -/
theorem C5_emit_iff_valid_witness :
    srvRun [ConnEvent.connOk "GET /token?t=DEPOP_WEB:alice HTTP/1.1".data,
        ConnEvent.shutdown] =
      ⟨["DEPOP_WEB:alice".data], [resp200], [ConnEvent.shutdown], true⟩ ∧
    srvRun [ConnEvent.connOk "GET /token?t=short HTTP/1.1".data,
        ConnEvent.shutdown] =
      ⟨(srvRun [ConnEvent.shutdown]).emits,
        resp200 :: (srvRun [ConnEvent.shutdown]).responses,
        (srvRun [ConnEvent.shutdown]).remaining,
        (srvRun [ConnEvent.shutdown]).winCloseScheduled⟩ :=
  ⟨(C5_emit_iff_valid "GET /token?t=DEPOP_WEB:alice HTTP/1.1".data
      "DEPOP_WEB:alice".data [ConnEvent.shutdown] (by decide)).1 (by decide),
   (C5_emit_iff_valid "GET /token?t=short HTTP/1.1".data
      "short".data [ConnEvent.shutdown] (by decide)).2 (by decide)⟩

/-- C6. End-to-end on concrete requests: a request carrying
`t=DEPOP_WEB:alice` (the tag-prefixed form with non-empty identifier)
causes exactly one emission, whose value classifies as a
`TaggedIdentifier` carrying `"alice"`; a request carrying `t=short`
(8 characters, no tag) produces no emission. -/
theorem C6_tagged_and_short_end_to_end :
    (srvRun [ConnEvent.connOk
        "GET /token?t=DEPOP_WEB:alice HTTP/1.1\r\nHost: 127.0.0.1\r\n\r\n".data]).emits =
      ["DEPOP_WEB:alice".data] ∧
    classifyCred "DEPOP_WEB:alice".data = (CredKind.TaggedIdentifier, "alice".data) ∧
    (srvRun [ConnEvent.connOk
        "GET /token?t=short HTTP/1.1\r\nHost: 127.0.0.1\r\n\r\n".data]).emits = [] := by
  decide

theorem responses_all_resp200 (evs : List ConnEvent) :
    ∀ r ∈ (srvRun evs).responses, r = resp200 := by
  induction evs with
  | nil => simp [srvRun]
  | cons ev rest ih =>
    cases ev with
    | shutdown => simp [srvRun]
    | acceptFail => simp [srvRun]
    | readFail => simpa [srvRun] using ih
    | connOk data =>
      cases hp : parseToken data with
      | some tok =>
        cases hv : isValidToken tok with
        | true => rw [srvRun_connOk_valid hp hv]; simp
        | false =>
          rw [srvRun_connOk_invalid hp hv]
          intro r hr
          rcases List.mem_cons.mp hr with h | h
          · exact h
          · exact ih r h
      | none =>
        rw [srvRun_connOk_noTok hp]
        intro r hr
        rcases List.mem_cons.mp hr with h | h
        · exact h
        · exact ih r h

theorem takeWhile_append_cons {p : Char → Bool} {l t : List Char} {x : Char}
    (hl : ∀ c ∈ l, p c = true) (hx : p x = false) :
    (l ++ x :: t).takeWhile p = l := by
  induction l with
  | nil => simp [List.takeWhile, hx]
  | cons c cs ih =>
    have hc : p c = true := hl c (List.mem_cons_self c cs)
    rw [List.cons_append, List.takeWhile_cons_of_pos hc,
      ih fun d hd => hl d (List.mem_cons_of_mem c hd)]

/-- C7. The server's per-connection behavior is content-independent and
failure-tolerant: every response it ever writes is the fixed
`200 OK` / permissive cross-origin / empty-body response; a connection
whose read succeeds is answered before and regardless of parsing; only
the first line of the data is parsed (anything after the first `'\n'` is
ignored); a failed or empty read just continues the loop; and a request
from which no candidate can be parsed is silently ignored, the loop
continuing — no read or parse failure ends the run. -/
theorem C7_fixed_response_and_nonfatal
    (evs rest : List ConnEvent) (r data l tail : List Char) :
    (r ∈ (srvRun evs).responses → r = resp200) ∧
    (srvRun (ConnEvent.connOk data :: rest)).responses.head? = some resp200 ∧
    ('\n' ∉ l → parseToken (l ++ '\n' :: tail) = parseToken (l ++ ['\n'])) ∧
    srvRun (ConnEvent.readFail :: rest) = srvRun rest ∧
    (parseToken data = none →
      srvRun (ConnEvent.connOk data :: rest) =
        ⟨(srvRun rest).emits, resp200 :: (srvRun rest).responses,
          (srvRun rest).remaining, (srvRun rest).winCloseScheduled⟩) := by
  refine ⟨fun hr => responses_all_resp200 evs r hr, ?_, ?_, by simp [srvRun],
    fun hp => srvRun_connOk_noTok hp⟩
  · cases hp : parseToken data with
    | some tok =>
      cases hv : isValidToken tok with
      | true => rw [srvRun_connOk_valid hp hv]; rfl
      | false => rw [srvRun_connOk_invalid hp hv]; rfl
    | none => rw [srvRun_connOk_noTok hp]; rfl
  · intro hnl
    have hfl : ∀ t' : List Char,
        (l ++ '\n' :: t').takeWhile (fun c => c ≠ '\n') = l := by
      intro t'
      refine takeWhile_append_cons ?_ (by simp)
      intro c hc
      simp only [ne_eq, decide_eq_true_eq]
      intro hceq
      exact hnl (hceq ▸ hc)
    have h3 : (l ++ ['\n']).takeWhile (fun c => c ≠ '\n') = l := hfl []
    simp only [parseToken, firstLineOpt,
      if_neg (show ¬(l ++ '\n' :: tail = []) by simp),
      if_neg (show ¬(l ++ ['\n'] = []) by simp), hfl tail, h3]

/-- Witness for C7 at concrete inputs: the concrete response of a
rejected request is the fixed response, a request with trailing headers
parses identically to its first line alone, and a no-candidate request
leaves the loop running into the following shutdown event. -/
theorem C7_fixed_response_and_nonfatal_witness :
    resp200 = resp200 ∧
    (srvRun [ConnEvent.connOk "GET /nothing HTTP/1.1".data,
        ConnEvent.shutdown]).responses.head? = some resp200 ∧
    parseToken ("GET /token?t=short HTTP/1.1".data ++ '\n' ::
        "Host: 127.0.0.1\r\nX: y".data) =
      parseToken ("GET /token?t=short HTTP/1.1".data ++ ['\n']) ∧
    srvRun (ConnEvent.readFail :: [ConnEvent.shutdown]) = srvRun [ConnEvent.shutdown] ∧
    srvRun (ConnEvent.connOk "GET /nothing HTTP/1.1".data :: [ConnEvent.shutdown]) =
      ⟨(srvRun [ConnEvent.shutdown]).emits,
        resp200 :: (srvRun [ConnEvent.shutdown]).responses,
        (srvRun [ConnEvent.shutdown]).remaining,
        (srvRun [ConnEvent.shutdown]).winCloseScheduled⟩ := by
  have h := C7_fixed_response_and_nonfatal
    [ConnEvent.connOk "GET /nothing HTTP/1.1".data, ConnEvent.shutdown]
    [ConnEvent.shutdown] resp200 "GET /nothing HTTP/1.1".data
    "GET /token?t=short HTTP/1.1".data "Host: 127.0.0.1\r\nX: y".data
  exact ⟨h.1 (by decide), h.2.1, h.2.2.1 (by decide), h.2.2.2.1,
    h.2.2.2.2 (by decide)⟩

/-! ## The single-listening-session invariant (C3) -/

/-- The coordinator invariant: any listening task is the one whose
cancellation sender is currently stored, all task ids are below the
fresh-id counter, and task ids are distinct. -/
def Inv (st : AppState) : Prop :=
  (∀ e ∈ st.servers, e.2 = SrvStatus.listening → st.shutdownTx = some e.1) ∧
  (∀ e ∈ st.servers, e.1 < st.nextId) ∧
  (st.servers.map Prod.fst).Nodup

theorem setBroken_map_fst (s' : SrvStatus) (id : Nat) (l : List (Nat × SrvStatus)) :
    (setBroken s' id l).map Prod.fst = l.map Prod.fst := by
  simp only [setBroken, List.map_map]
  apply List.map_congr_left
  intro e _
  simp only [Function.comp]
  split <;> rfl

theorem mem_setBroken {s' : SrvStatus} {id : Nat} {l : List (Nat × SrvStatus)}
    {e' : Nat × SrvStatus} (h : e' ∈ setBroken s' id l) :
    e' ∈ l ∨ (e'.2 = s' ∧ (e'.1, SrvStatus.listening) ∈ l) := by
  obtain ⟨e, hmem, heq⟩ := List.mem_map.mp h
  by_cases hc : e.1 = id && e.2 == SrvStatus.listening
  · rw [if_pos hc] at heq
    right
    have h2 : e.2 = SrvStatus.listening := by
      have := (Bool.and_eq_true _ _).mp hc
      exact beq_iff_eq.mp this.2
    subst heq
    exact ⟨rfl, by rwa [← h2]⟩
  · rw [if_neg hc] at heq
    exact Or.inl (heq ▸ hmem)

theorem listening_mem_setBroken {s' : SrvStatus} (hs' : s' ≠ SrvStatus.listening)
    {id : Nat} {l : List (Nat × SrvStatus)} {e' : Nat × SrvStatus}
    (h : e' ∈ setBroken s' id l) (hl : e'.2 = SrvStatus.listening) :
    e' ∈ l ∧ e'.1 ≠ id := by
  obtain ⟨e, hmem, heq⟩ := List.mem_map.mp h
  by_cases hc : e.1 = id && e.2 == SrvStatus.listening
  · rw [if_pos hc] at heq
    exfalso
    exact hs' (by rw [← heq] at hl; exact hl)
  · rw [if_neg hc] at heq
    subst heq
    refine ⟨hmem, fun hid => ?_⟩
    exact hc (by simp [hid, hl])

theorem inv_initState : Inv initState := by
  refine ⟨?_, ?_, ?_⟩ <;> simp [initState, Inv]

theorem no_listening_after_prelude {st : AppState} (hinv : Inv st) :
    ∀ e ∈ (openPrelude st).servers, e.2 ≠ SrvStatus.listening := by
  obtain ⟨htx, _, _⟩ := hinv
  intro e he hl
  unfold openPrelude at he
  cases htxv : st.shutdownTx with
  | none =>
    rw [htxv] at he
    simp only at he
    have := htx e he hl
    rw [htxv] at this
    exact Option.noConfusion this
  | some id =>
    rw [htxv] at he
    simp only [cancelSrv] at he
    have hmem := listening_mem_setBroken (by simp) he hl
    have := htx e hmem.1 hl
    rw [htxv] at this
    exact hmem.2 (Option.some.injEq _ _ ▸ this.symm)

theorem prelude_fields (st : AppState) :
    (openPrelude st).nextId = st.nextId ∧
    (openPrelude st).servers.map Prod.fst = st.servers.map Prod.fst := by
  unfold openPrelude
  cases st.shutdownTx with
  | none => exact ⟨rfl, rfl⟩
  | some id => exact ⟨rfl, setBroken_map_fst _ _ _⟩

theorem inv_openPrelude {st : AppState} (hinv : Inv st) : Inv (openPrelude st) := by
  obtain ⟨htx, hbound, hnd⟩ := hinv
  have hfld := prelude_fields st
  refine ⟨?_, ?_, ?_⟩
  · intro e he hl
    exact absurd hl (no_listening_after_prelude ⟨htx, hbound, hnd⟩ e he)
  · intro e he
    have : e.1 ∈ (openPrelude st).servers.map Prod.fst := List.mem_map_of_mem _ he
    rw [hfld.2] at this
    obtain ⟨e', he', heq⟩ := List.mem_map.mp this
    rw [hfld.1, ← heq]
    exact hbound e' he'
  · rw [hfld.2]; exact hnd

theorem inv_open {st : AppState} (hinv : Inv st) (p : Nat) :
    Inv (open_depop_login st p) := by
  have hpre := inv_openPrelude hinv
  obtain ⟨htx, hbound, hnd⟩ := hpre
  have hnl := no_listening_after_prelude hinv
  have hfld := prelude_fields st
  refine ⟨?_, ?_, ?_⟩
  · intro e he hl
    simp only [open_depop_login] at he ⊢
    rcases List.mem_cons.mp he with h | h
    · rw [h]
    · exact absurd hl (hnl e h)
  · intro e he
    simp only [open_depop_login] at he ⊢
    rcases List.mem_cons.mp he with h | h
    · rw [h]; rw [hfld.1]; omega
    · have := hbound e h
      rw [hfld.1] at this ⊢
      omega
  · simp only [open_depop_login, List.map_cons]
    refine List.nodup_cons.mpr ⟨?_, hnd⟩
    intro hmem
    obtain ⟨e', he', heq⟩ := List.mem_map.mp hmem
    have := hbound e' he'
    rw [hfld.1] at this
    omega

theorem inv_step {st st' : AppState} (hinv : Inv st) (h : Step st st') : Inv st' := by
  obtain ⟨htx, hbound, hnd⟩ := hinv
  cases h with
  | openOk p => exact inv_open ⟨htx, hbound, hnd⟩ p
  | openBindFail => exact inv_openPrelude ⟨htx, hbound, hnd⟩
  | capture id _h =>
    refine ⟨?_, ?_, ?_⟩
    · intro e he hl
      have hmem := listening_mem_setBroken (by simp) he hl
      exact htx e hmem.1 hl
    · intro e he
      rcases mem_setBroken he with h | h
      · exact hbound e h
      · exact hbound (e.1, SrvStatus.listening) h.2
    · simpa [setBroken_map_fst] using hnd
  | stop id =>
    refine ⟨?_, ?_, ?_⟩
    · intro e he hl
      have hmem := @listening_mem_setBroken SrvStatus.cancelled (by simp) id
        st.servers e (by simpa [cancelSrv] using he) hl
      exact htx e hmem.1 hl
    · intro e he
      rcases mem_setBroken (by simpa [cancelSrv] using he) with h | h
      · exact hbound e h
      · exact hbound (e.1, SrvStatus.listening) h.2
    · simpa [cancelSrv, setBroken_map_fst] using hnd
  | nav url =>
    unfold navigate_depop_window
    split
    · cases hw : st.win with
      | none => simp only [hw]; exact ⟨htx, hbound, hnd⟩
      | some u => simp only [hw]; exact ⟨htx, hbound, hnd⟩
    · exact ⟨htx, hbound, hnd⟩
  | closeWin => exact ⟨htx, hbound, hnd⟩

theorem inv_reachable {st : AppState} (h : Reachable st) : Inv st := by
  induction h with
  | refl => exact inv_initState
  | tail _ hstep ih => exact inv_step ih hstep

theorem filter_listening_le_one {l : List (Nat × SrvStatus)} {t : Nat}
    (hkey : ∀ e ∈ l, e.2 = SrvStatus.listening → e.1 = t)
    (hnd : (l.map Prod.fst).Nodup) :
    (l.filter (fun e => e.2 == SrvStatus.listening)).length ≤ 1 := by
  induction l with
  | nil => simp
  | cons e l ih =>
    rw [List.map_cons, List.nodup_cons] at hnd
    by_cases he : e.2 = SrvStatus.listening
    · have heb : (e.2 == SrvStatus.listening) = true := beq_iff_eq.mpr he
      rw [List.filter_cons, if_pos heb]
      have hrest : l.filter (fun x => x.2 == SrvStatus.listening) = [] := by
        rw [List.eq_nil_iff_forall_not_mem]
        intro e' he'
        obtain ⟨hmem, hp⟩ := List.mem_filter.mp he'
        have hl' : e'.2 = SrvStatus.listening := beq_iff_eq.mp hp
        have h1 : e'.1 = t := hkey e' (List.mem_cons_of_mem e hmem) hl'
        have h2 : e.1 = t := hkey e (List.mem_cons_self e l) he
        exact hnd.1 (h2 ▸ h1 ▸ List.mem_map_of_mem Prod.fst hmem)
      rw [hrest]
      simp
    · have heb : (e.2 == SrvStatus.listening) = false := by
        simpa using he
      rw [List.filter_cons, if_neg (by simp [heb])]
      exact ih (fun e' he' hl' => hkey e' (List.mem_cons_of_mem e he') hl') hnd.2

/-- C3. In every reachable coordinator state at most one accept-loop task
is listening; and a call to `open_depop_login` from such a state leaves,
among all its tasks, only the newly spawned one listening — the
previously stored cancellation signal is fired (moving the old task to
cancelled) before the new listener is installed. -/
theorem C3_single_listening (st : AppState) (h : Reachable st) :
    listeningCount st ≤ 1 ∧
    ∀ p, ∀ e ∈ (open_depop_login st p).servers, e.2 = SrvStatus.listening →
      e.1 = st.nextId := by
  have hinv := inv_reachable h
  constructor
  · obtain ⟨htx, hbound, hnd⟩ := hinv
    cases htxv : st.shutdownTx with
    | none =>
      have : ∀ e ∈ st.servers, e.2 ≠ SrvStatus.listening := by
        intro e he hl
        have := htx e he hl
        rw [htxv] at this
        exact Option.noConfusion this
      have hemp : st.servers.filter (fun e => e.2 == SrvStatus.listening) = [] := by
        rw [List.eq_nil_iff_forall_not_mem]
        intro e he
        obtain ⟨hmem, hp⟩ := List.mem_filter.mp he
        exact this e hmem (beq_iff_eq.mp hp)
      rw [listeningCount, hemp]
      simp
    | some t =>
      refine filter_listening_le_one (t := t) ?_ hnd
      intro e he hl
      have := htx e he hl
      rw [htxv] at this
      exact Option.some.inj this.symm
  · intro p e he hl
    have hnl := no_listening_after_prelude hinv
    have hfld := prelude_fields st
    simp only [open_depop_login] at he
    rcases List.mem_cons.mp he with hh | hh
    · rw [hh, hfld.1]
    · exact absurd hl (hnl e hh)

/-- Witness for C3: the state after two successive `open_depop_login`
calls (ports 5 then 6) is reachable and has at most one listening task. -/
theorem C3_single_listening_witness :
    listeningCount (open_depop_login (open_depop_login initState 5) 6) ≤ 1 :=
  (C3_single_listening _
    (Relation.ReflTransGen.tail
      (Relation.ReflTransGen.tail Relation.ReflTransGen.refl
        (Step.openOk initState 5))
      (Step.openOk (open_depop_login initState 5) 6))).1

/-! ## C4 (navigate) and C8 (rescan preconditions) -/

/-- Counterexample to C4 as stated: `navigate` succeeds on
`https://evil.com?a=.depop.com`, a URL that is not on the depop.com
domain (its host is `evil.com` — the code's check cuts the would-be host
only at `'/'`, not at `'?'`, and then accepts any ending in
`.depop.com`), and the browser surface is redirected to it. -/
theorem C4_navigate_counterexample :
    (navigate_depop_window ⟨some 5, some 0, [(0, SrvStatus.listening)], 1,
        some depopLoginUrl⟩ "https://evil.com?a=.depop.com".data).1 = Except.ok () ∧
    (navigate_depop_window ⟨some 5, some 0, [(0, SrvStatus.listening)], 1,
        some depopLoginUrl⟩ "https://evil.com?a=.depop.com".data).2.win =
      some "https://evil.com?a=.depop.com".data ∧
    ¬ onDepopDomain "https://evil.com?a=.depop.com".data := by
  refine ⟨?_, ?_, ?_⟩ <;> decide

/-- C4 (amended). `navigate(url)` succeeds iff the login window is open
and `url` passes the code's domain check — `url` starts with `https://`
and its text after stripping leading `https://` repetitions, cut at the
first `'/'`, equals `depop.com` or ends in `.depop.com` (a check that
also accepts URLs whose real host merely precedes a `?` or `#` carrying
`.depop.com`); on success it redirects the browser surface to `url`, on
any failure — in particular for `http://evil.example.com`, which fails
the domain check — the state is unchanged; an https URL on a depop.com
subdomain such as `https://auth.depop.com/magic?x=1` passes the check. -/
theorem C4_navigate_domain_check (st : AppState) (url : List Char) :
    ((navigate_depop_window st url).1 = Except.ok () ↔
      (is_depop_url url = true ∧ st.win ≠ none)) ∧
    ((navigate_depop_window st url).1 ≠ Except.ok () →
      (navigate_depop_window st url).2 = st) ∧
    ((navigate_depop_window st url).1 = Except.ok () →
      (navigate_depop_window st url).2.win = some url) ∧
    is_depop_url "http://evil.example.com".data = false ∧
    is_depop_url "https://auth.depop.com/magic?x=1".data = true := by
  refine ⟨?_, ?_, ?_, by decide, by decide⟩
  · unfold navigate_depop_window
    cases hd : is_depop_url url with
    | true =>
      cases hw : st.win with
      | none => simp
      | some u => simp [hw]
    | false => simp
  · unfold navigate_depop_window
    cases hd : is_depop_url url with
    | true =>
      cases hw : st.win with
      | none => intro _; rfl
      | some u => intro hne; exact absurd rfl hne
    | false => intro _; rfl
  · unfold navigate_depop_window
    cases hd : is_depop_url url with
    | true =>
      cases hw : st.win with
      | none => intro hok; exact absurd hok (by simp)
      | some u => intro _; rfl
    | false => intro hok; exact absurd hok (by simp)

/-- Witness for C4 (amended): a successful navigation to a depop.com
subdomain URL redirects the window there, and the rejected
`http://evil.example.com` leaves the state untouched. -/
theorem C4_navigate_domain_check_witness :
    (navigate_depop_window ⟨some 5, some 0, [], 1, some depopLoginUrl⟩
        "https://auth.depop.com/magic?x=1".data).1 = Except.ok () ∧
    (navigate_depop_window ⟨some 5, some 0, [], 1, some depopLoginUrl⟩
        "https://auth.depop.com/magic?x=1".data).2.win =
      some "https://auth.depop.com/magic?x=1".data ∧
    (navigate_depop_window ⟨some 5, some 0, [], 1, some depopLoginUrl⟩
        "http://evil.example.com".data).2 =
      ⟨some 5, some 0, [], 1, some depopLoginUrl⟩ :=
  ⟨(C4_navigate_domain_check ⟨some 5, some 0, [], 1, some depopLoginUrl⟩
      "https://auth.depop.com/magic?x=1".data).1.mpr ⟨by decide, by decide⟩,
   (C4_navigate_domain_check ⟨some 5, some 0, [], 1, some depopLoginUrl⟩
      "https://auth.depop.com/magic?x=1".data).2.2.1
      ((C4_navigate_domain_check _ _).1.mpr ⟨by decide, by decide⟩),
   (C4_navigate_domain_check ⟨some 5, some 0, [], 1, some depopLoginUrl⟩
      "http://evil.example.com".data).2.1 (by decide)⟩

/-- C8. `scan_depop_auth` with no stored port, or with the login window
closed, fails with an explicit precondition error and leaves the session
state exactly as it was (in particular no new port is bound and the
stored cancellation handle is untouched). -/
theorem C8_scan_preconditions (st : AppState)
    (h : st.win = none ∨ st.port = none) :
    (∃ msg, (scan_depop_auth st).1 = Except.error msg) ∧
    (scan_depop_auth st).2 = st := by
  unfold scan_depop_auth
  cases hp : st.port with
  | none => exact ⟨⟨"Token server not running — click Connect first", rfl⟩, rfl⟩
  | some p =>
    cases hw : st.win with
    | none => exact ⟨⟨"Depop login window is not open", rfl⟩, rfl⟩
    | some u =>
      exfalso
      rcases h with hwn | hpn
      · rw [hw] at hwn; exact Option.noConfusion hwn
      · rw [hp] at hpn; exact Option.noConfusion hpn

/-- Witness for C8: with a bound port but the login window closed, the
rescan command errors and the state (port and cancellation handle
included) is unchanged. -/
theorem C8_scan_preconditions_witness :
    (∃ msg, (scan_depop_auth ⟨some 5, some 0, [(0, SrvStatus.listening)], 1, none⟩).1 =
      Except.error msg) ∧
    (scan_depop_auth ⟨some 5, some 0, [(0, SrvStatus.listening)], 1, none⟩).2 =
      ⟨some 5, some 0, [(0, SrvStatus.listening)], 1, none⟩ :=
  C8_scan_preconditions ⟨some 5, some 0, [(0, SrvStatus.listening)], 1, none⟩
    (Or.inl rfl)

/-! ## C9: shape of the request-line parser -/

theorem splitCharAux_no_sep {sep : Char} {a : List Char} (h : sep ∉ a) :
    ∀ acc, splitCharAux sep a acc = [acc.reverse ++ a] := by
  induction a with
  | nil => intro acc; simp [splitCharAux]
  | cons c cs ih =>
    intro acc
    have hc : ¬(c = sep) := fun hq => h (by rw [← hq]; exact List.mem_cons_self c cs)
    have hcs : sep ∉ cs := fun hm => h (List.mem_cons_of_mem c hm)
    simp [splitCharAux, hc, ih hcs]

theorem splitCharAux_sep {sep : Char} {a : List Char} (h : sep ∉ a) (b : List Char) :
    ∀ acc, splitCharAux sep (a ++ sep :: b) acc =
      (acc.reverse ++ a) :: splitCharAux sep b [] := by
  induction a with
  | nil => intro acc; simp [splitCharAux]
  | cons c cs ih =>
    intro acc
    have hc : ¬(c = sep) := fun hq => h (by rw [← hq]; exact List.mem_cons_self c cs)
    have hcs : sep ∉ cs := fun hm => h (List.mem_cons_of_mem c hm)
    simp [splitCharAux, hc, ih hcs]

theorem splitChar_no_sep {sep : Char} {a : List Char} (h : sep ∉ a) :
    splitChar sep a = [a] := by
  unfold splitChar
  rw [splitCharAux_no_sep h []]
  simp

theorem splitChar_first_sep {sep : Char} {a b : List Char} (h : sep ∉ a) :
    splitChar sep (a ++ sep :: b) = a :: splitChar sep b := by
  unfold splitChar
  rw [splitCharAux_sep h b []]
  simp

theorem splitWsAux_word {w : List Char}
    (hw : ∀ c ∈ w, rustIsWhitespace c = false) :
    ∀ s acc, splitWsAux (w ++ s) acc = splitWsAux s (w.reverse ++ acc) := by
  induction w with
  | nil => intro s acc; simp
  | cons c cs ih =>
    intro s acc
    have hc : rustIsWhitespace c = false := hw c (List.mem_cons_self c cs)
    have hcs : ∀ d ∈ cs, rustIsWhitespace d = false :=
      fun d hd => hw d (List.mem_cons_of_mem c hd)
    simp [splitWsAux, hc, ih hcs]

theorem splitWsAux_stop {s : List Char} {c : Char} {acc : List Char}
    (hc : rustIsWhitespace c = true) (ha : acc ≠ []) :
    splitWsAux (c :: s) acc = acc.reverse :: splitWsAux s [] := by
  cases acc with
  | nil => exact absurd rfl ha
  | cons a as => simp [splitWsAux, hc]

theorem splitWsAux_final {acc : List Char} (ha : acc ≠ []) :
    splitWsAux [] acc = [acc.reverse] := by
  cases acc with
  | nil => exact absurd rfl ha
  | cons a as => simp [splitWsAux]

theorem splitWs_word_sep {w : List Char} {c : Char} {rest : List Char}
    (hne : w ≠ []) (hw : ∀ d ∈ w, rustIsWhitespace d = false)
    (hc : rustIsWhitespace c = true) :
    splitWs (w ++ c :: rest) = w :: splitWs rest := by
  unfold splitWs
  rw [splitWsAux_word hw (c :: rest) [],
    splitWsAux_stop hc (by simp [hne])]
  simp

theorem splitWs_word {w : List Char} (hne : w ≠ [])
    (hw : ∀ d ∈ w, rustIsWhitespace d = false) :
    splitWs w = [w] := by
  unfold splitWs
  conv_lhs => rw [← List.append_nil w]
  rw [splitWsAux_word hw [] [], splitWsAux_final (by simp [hne])]
  simp

theorem stripTrailingCR_no_cr {l : List Char} (hr : ∀ c ∈ l, c ≠ '\r') :
    stripTrailingCR l = l := by
  unfold stripTrailingCR
  cases hl : l.getLast? with
  | none => simp
  | some x =>
    have hx : x ∈ l := by
      obtain ⟨hne, hxe⟩ := List.mem_getLast?_eq_getLast (Option.mem_def.mpr hl)
      exact hxe ▸ List.getLast_mem hne
    rw [if_neg (by simp [hr x hx])]

theorem parseToken_line (line body : List Char)
    (hn : ∀ c ∈ line, c ≠ '\n') (hr : ∀ c ∈ line, c ≠ '\r') :
    parseToken (line ++ '\n' :: body) =
      ((splitWs line).get? 1).bind fun path =>
        ((splitChar '?' path).get? 1).bind fun q =>
          (((splitChar '&' q).find? (fun p => ['t', '='].isPrefixOf p)).map
            (fun p => urlDecodeStr (p.drop 2))) := by
  have htw : (line ++ '\n' :: body).takeWhile (fun c => c ≠ '\n') = line := by
    refine takeWhile_append_cons ?_ (by simp)
    intro c hc
    simp only [ne_eq, decide_eq_true_eq]
    exact hn c hc
  have hfl : firstLineOpt (line ++ '\n' :: body) = some line := by
    unfold firstLineOpt
    rw [if_neg (by simp), htw, stripTrailingCR_no_cr hr]
  simp [parseToken, hfl]

/-- C9. The parser is method- and path-agnostic: for any non-empty
whitespace-free `m` (the method), any `'?'`-free whitespace-free `path`,
any `'?'`-free whitespace-free query `q` and any trailing third field
`tail`, the candidate is the percent-decode of whatever follows `"t="` in
the first `"t="`-led `'&'`-piece of `q` — and when `q` has no such piece,
or the first line has no second field, or the second field has no
`'?'`, no candidate at all is produced. -/
theorem C9_parser_shape (m path q v tail body : List Char)
    (hm : m ≠ []) (hmw : ∀ c ∈ m, rustIsWhitespace c = false)
    (hpathw : ∀ c ∈ path, rustIsWhitespace c = false ∧ c ≠ '?')
    (hqw : ∀ c ∈ q, rustIsWhitespace c = false ∧ c ≠ '?')
    (htail : ∀ c ∈ tail, c ≠ '\n' ∧ c ≠ '\r') :
    (((splitChar '&' q).find? (fun p => ['t', '='].isPrefixOf p)) =
        some (['t', '='] ++ v) →
      parseToken ((m ++ ' ' :: ((path ++ '?' :: q) ++ ' ' :: tail)) ++ '\n' :: body) =
        some (urlDecodeStr v)) ∧
    (((splitChar '&' q).find? (fun p => ['t', '='].isPrefixOf p)) = none →
      parseToken ((m ++ ' ' :: ((path ++ '?' :: q) ++ ' ' :: tail)) ++ '\n' :: body) =
        none) ∧
    parseToken (m ++ '\n' :: body) = none ∧
    parseToken ((m ++ ' ' :: path) ++ '\n' :: body) = none := by
  have hws_nl : rustIsWhitespace '\n' = true := by decide
  have hws_cr : rustIsWhitespace '\r' = true := by decide
  have hws_sp : rustIsWhitespace ' ' = true := by decide
  have hnot_nl : ∀ {c : Char}, rustIsWhitespace c = false → c ≠ '\n' := by
    intro c hc he
    rw [he, hws_nl] at hc
    exact Bool.noConfusion hc
  have hnot_cr : ∀ {c : Char}, rustIsWhitespace c = false → c ≠ '\r' := by
    intro c hc he
    rw [he, hws_cr] at hc
    exact Bool.noConfusion hc
  -- the second field of the accept line
  have hfield2w : ∀ c ∈ path ++ '?' :: q, rustIsWhitespace c = false := by
    intro c hc
    rcases List.mem_append.mp hc with h | h
    · exact (hpathw c h).1
    · rcases List.mem_cons.mp h with h | h
      · rw [h]; decide
      · exact (hqw c h).1
  have hfield2ne : path ++ '?' :: q ≠ [] := by simp
  -- characters of the full accept line
  have hline1 : ∀ c ∈ m ++ ' ' :: ((path ++ '?' :: q) ++ ' ' :: tail),
      c ≠ '\n' ∧ c ≠ '\r' := by
    intro c hc
    rcases List.mem_append.mp hc with h | h
    · exact ⟨hnot_nl (hmw c h), hnot_cr (hmw c h)⟩
    · rcases List.mem_cons.mp h with h | h
      · rw [h]; exact ⟨by decide, by decide⟩
      · rcases List.mem_append.mp h with h | h
        · exact ⟨hnot_nl (hfield2w c h), hnot_cr (hfield2w c h)⟩
        · rcases List.mem_cons.mp h with h | h
          · rw [h]; exact ⟨by decide, by decide⟩
          · exact htail c h
  have hsplit1 :
      splitWs (m ++ ' ' :: ((path ++ '?' :: q) ++ ' ' :: tail)) =
        m :: (path ++ '?' :: q) :: splitWs tail := by
    rw [splitWs_word_sep hm hmw hws_sp,
      splitWs_word_sep hfield2ne hfield2w hws_sp]
  have hq_no_q : '?' ∉ q := fun hmem => (hqw '?' hmem).2 rfl
  have hpath_no_q : '?' ∉ path := fun hmem => (hpathw '?' hmem).2 rfl
  have hsplitq : splitChar '?' (path ++ '?' :: q) = path :: [q] := by
    rw [splitChar_first_sep hpath_no_q, splitChar_no_sep hq_no_q]
  have hparse1 := parseToken_line (m ++ ' ' :: ((path ++ '?' :: q) ++ ' ' :: tail))
    body (fun c hc => (hline1 c hc).1) (fun c hc => (hline1 c hc).2)
  refine ⟨?_, ?_, ?_, ?_⟩
  · intro hfind
    rw [hparse1, hsplit1]
    show ((splitChar '?' (path ++ '?' :: q)).get? 1).bind _ = _
    rw [hsplitq]
    show (((splitChar '&' q).find? (fun p => ['t', '='].isPrefixOf p)).map
      (fun p => urlDecodeStr (p.drop 2))) = _
    rw [hfind]
    simp
  · intro hfind
    rw [hparse1, hsplit1]
    show ((splitChar '?' (path ++ '?' :: q)).get? 1).bind _ = _
    rw [hsplitq]
    show (((splitChar '&' q).find? (fun p => ['t', '='].isPrefixOf p)).map
      (fun p => urlDecodeStr (p.drop 2))) = _
    rw [hfind]
    rfl
  · have hparse3 := parseToken_line m body
      (fun c hc => hnot_nl (hmw c hc)) (fun c hc => hnot_cr (hmw c hc))
    rw [hparse3, splitWs_word hm hmw]
    rfl
  · have hlinew : ∀ c ∈ m ++ ' ' :: path, c ≠ '\n' ∧ c ≠ '\r' := by
      intro c hc
      rcases List.mem_append.mp hc with h | h
      · exact ⟨hnot_nl (hmw c h), hnot_cr (hmw c h)⟩
      · rcases List.mem_cons.mp h with h | h
        · rw [h]; exact ⟨by decide, by decide⟩
        · exact ⟨hnot_nl (hpathw c h).1, hnot_cr (hpathw c h).1⟩
    have hparse4 := parseToken_line (m ++ ' ' :: path) body
      (fun c hc => (hlinew c hc).1) (fun c hc => (hlinew c hc).2)
    rw [hparse4, splitWs_word_sep hm hmw hws_sp]
    cases hpath : path with
    | nil => rfl
    | cons a as =>
      rw [← hpath, splitWs_word (by rw [hpath]; simp)
        (fun d hd => (hpathw d hd).1)]
      show ((splitChar '?' path).get? 1).bind _ = none
      rw [splitChar_no_sep hpath_no_q]
      rfl

/-- Witness for C9 at a concrete request: a `POST` to a non-`/token`
path with the `t=` parameter second in the query still yields the
decoded candidate, and the three no-candidate shapes yield none. -/
theorem C9_parser_shape_witness :
    parseToken (("POST".data ++ ' ' :: (("/cb".data ++ '?' :: "a=1&t=ab%20c".data) ++
        ' ' :: "HTTP/1.1".data)) ++ '\n' :: "Host: h\r\n".data) =
      some (urlDecodeStr "ab%20c".data) ∧
    parseToken ("POST".data ++ '\n' :: "Host: h\r\n".data) = none ∧
    parseToken (("POST".data ++ ' ' :: "/cb".data) ++ '\n' :: "Host: h\r\n".data) =
      none := by
  have h := C9_parser_shape "POST".data "/cb".data "a=1&t=ab%20c".data
    "ab%20c".data "HTTP/1.1".data "Host: h\r\n".data
    (by decide) (by decide) (by decide) (by decide) (by decide)
  exact ⟨h.1 (by decide), h.2.2.1, h.2.2.2⟩

/-! ## C10: properties of url_decode -/

theorem url_decode_other {b : Nat} {s : List Nat} (h37 : b ≠ 37) (h43 : b ≠ 43) :
    url_decode (b :: s) = Char.ofNat b :: url_decode s := by
  rcases s with _ | ⟨b1, _ | ⟨b2, rest⟩⟩ <;>
    · rw [url_decode.eq_def]
      split <;> simp_all

theorem url_decode_pct_valid {b1 b2 v : Nat} {s : List Nat}
    (h : hexPairVal b1 b2 = some v) :
    url_decode (37 :: b1 :: b2 :: s) = Char.ofNat v :: url_decode s := by
  simp [url_decode, h]

theorem url_decode_pct_invalid {b1 b2 : Nat} {s : List Nat}
    (h : hexPairVal b1 b2 = none) :
    url_decode (37 :: b1 :: b2 :: s) = '%' :: url_decode (b1 :: b2 :: s) := by
  simp [url_decode, h]

theorem hexDigitVal_hexDigitUpper {n : Nat} (h : n < 16) :
    hexDigitVal (hexDigitUpper n).toNat = some n := by
  interval_cases n <;> decide

theorem hexDigitUpper_toNat_lt {n : Nat} (h : n < 16) :
    (hexDigitUpper n).toNat < 128 := by
  interval_cases n <;> decide

theorem hexDigitUpper_toNat_ne_43 {n : Nat} (h : n < 16) :
    (hexDigitUpper n).toNat ≠ 43 := by
  interval_cases n <;> decide

theorem utf8EncodeChar_ascii {c : Char} (h : c.toNat < 128) :
    utf8EncodeChar c = [c.toNat] := by
  simp [utf8EncodeChar, h]

theorem toNat_eq_37 {c : Char} (h : c.toNat = 37) : c = '%' := by
  have := congrArg Char.ofNat h
  rwa [Char.ofNat_toNat] at this

theorem toNat_eq_43 {c : Char} (h : c.toNat = 43) : c = '+' := by
  have := congrArg Char.ofNat h
  rwa [Char.ofNat_toNat] at this

theorem decode_pctEncode (s : List Char)
    (h : ∀ c ∈ s, 32 ≤ c.toNat ∧ c.toNat ≤ 126 ∧ rustIsWhitespace c = false ∧
      c ≠ '+' ∧ c ≠ '%') :
    urlDecodeStr (pctEncode s) = s := by
  unfold urlDecodeStr
  induction s with
  | nil => rfl
  | cons c cs ih =>
    obtain ⟨h32, h126, hws, hplus, hpct⟩ := h c (List.mem_cons_self c cs)
    have hcs : ∀ d ∈ cs, 32 ≤ d.toNat ∧ d.toNat ≤ 126 ∧ rustIsWhitespace d = false ∧
        d ≠ '+' ∧ d ≠ '%' := fun d hd => h d (List.mem_cons_of_mem c hd)
    have hlt : c.toNat < 128 := by omega
    have hstep : pctEncode (c :: cs) = pctEncodeChar c ++ pctEncode cs := by
      simp [pctEncode]
    rw [hstep, utf8Encode_append]
    by_cases hu : uriUnreserved c = true
    · have hch : pctEncodeChar c = [c] := by simp [pctEncodeChar, hu]
      have he1 : utf8Encode [c] = [c.toNat] := by
        simp [utf8Encode, utf8EncodeChar_ascii hlt]
      rw [hch, he1, List.cons_append, List.nil_append,
        url_decode_other (fun he => hpct (toNat_eq_37 he))
          (fun he => hplus (toNat_eq_43 he)),
        Char.ofNat_toNat, ih hcs]
    · have hch : pctEncodeChar c =
          ['%', hexDigitUpper (c.toNat / 16), hexDigitUpper (c.toNat % 16)] := by
        simp [pctEncodeChar, hu]
      have hd1 : c.toNat / 16 < 16 := by omega
      have hd2 : c.toNat % 16 < 16 := Nat.mod_lt _ (by norm_num)
      have he1 : utf8Encode ['%', hexDigitUpper (c.toNat / 16),
          hexDigitUpper (c.toNat % 16)] =
          [37, (hexDigitUpper (c.toNat / 16)).toNat,
            (hexDigitUpper (c.toNat % 16)).toNat] := by
        rw [show (37 : Nat) = '%'.toNat from rfl]
        simp [utf8Encode, utf8EncodeChar_ascii (show '%'.toNat < 128 by decide),
          utf8EncodeChar_ascii (hexDigitUpper_toNat_lt hd1),
          utf8EncodeChar_ascii (hexDigitUpper_toNat_lt hd2)]
      have hpair : hexPairVal (hexDigitUpper (c.toNat / 16)).toNat
          (hexDigitUpper (c.toNat % 16)).toNat = some c.toNat := by
        unfold hexPairVal
        rw [if_neg (hexDigitUpper_toNat_ne_43 hd1),
          hexDigitVal_hexDigitUpper hd1, hexDigitVal_hexDigitUpper hd2]
        show some (16 * (c.toNat / 16) + c.toNat % 16) = some c.toNat
        have : 16 * (c.toNat / 16) + c.toNat % 16 = c.toNat := by omega
        rw [this]
      rw [hch, he1, List.cons_append, List.cons_append, List.cons_append,
        List.nil_append, url_decode_pct_valid hpair, Char.ofNat_toNat, ih hcs]

/-- Counterexample to C10 as stated: in `"%+41"` the two characters after
`'%'` are not a hex pair (`'+'` is not a hex digit), so per the claim the
sequence should be left in place literally — but `u8::from_str_radix`
accepts a leading `'+'` sign, so `url_decode` turns `"%+4"` into the
single byte `4` and the output is `"\x041"`, not `"%+41"`. -/
theorem C10_url_decode_counterexample :
    hexDigitVal '+'.toNat = none ∧
    urlDecodeStr "%+41".data = [Char.ofNat 4, '1'] ∧
    urlDecodeStr "%+41".data ≠ "%+41".data := by
  exact ⟨by decide, by decide, by decide⟩

/-- C10 (amended). `url_decode` inverts `encodeURIComponent`-style
percent-encoding on printable, whitespace-free ASCII payloads without
literal `'+'` or `'%'`; it maps `'+'` to a space; it decodes `"%XY"`
exactly when `u8::from_str_radix` accepts `XY` — i.e. `X` and `Y` are
both hex digits, or `X` is `'+'` and `Y` a hex digit (sign form) — to
that byte as one char; and any `'%'` whose following two bytes are not
accepted, or which has fewer than two following bytes, is kept
literally. -/
theorem C10_url_decode_amended (s : List Char) (bs : List Nat) (b b1 b2 v : Nat) :
    ((∀ c ∈ s, 32 ≤ c.toNat ∧ c.toNat ≤ 126 ∧ rustIsWhitespace c = false ∧
        c ≠ '+' ∧ c ≠ '%') →
      urlDecodeStr (pctEncode s) = s) ∧
    url_decode (43 :: bs) = ' ' :: url_decode bs ∧
    (hexPairVal b1 b2 = some v →
      url_decode (37 :: b1 :: b2 :: bs) = Char.ofNat v :: url_decode bs) ∧
    (hexPairVal b1 b2 = none →
      url_decode (37 :: b1 :: b2 :: bs) = '%' :: url_decode (b1 :: b2 :: bs)) ∧
    url_decode [37] = ['%'] ∧
    url_decode [37, b] = '%' :: url_decode [b] ∧
    (hexPairVal b1 b2 = some v ↔
      ((∃ d1 d2, hexDigitVal b1 = some d1 ∧ hexDigitVal b2 = some d2 ∧
          v = 16 * d1 + d2) ∨
        (b1 = 43 ∧ hexDigitVal b2 = some v))) := by
  refine ⟨decode_pctEncode s, by simp [url_decode], url_decode_pct_valid,
    url_decode_pct_invalid, rfl, ?_, ?_⟩
  · rcases hb : b with _ | n <;> rfl
  · unfold hexPairVal
    by_cases hb1 : b1 = 43
    · subst hb1
      simp [show hexDigitVal 43 = none from rfl]
    · rw [if_neg hb1]
      cases h1 : hexDigitVal b1 with
      | none => simp [h1, hb1]
      | some d1 =>
        cases h2 : hexDigitVal b2 with
        | none => simp
        | some d2 =>
          constructor
          · intro hv
            have hv' : some (16 * d1 + d2) = some v := hv
            exact Or.inl ⟨d1, d2, rfl, rfl, (Option.some.inj hv').symm⟩
          · rintro (⟨e1, e2, he1, he2, hv⟩ | ⟨hc, _⟩)
            · show some (16 * d1 + d2) = some v
              rw [Option.some.inj he1, Option.some.inj he2, ← hv]
            · exact absurd hc hb1

/-- Witness for C10 (amended) at concrete inputs: the round trip on
`"abc"`, a decoded `"%41"` pair, and a rejected `"%G0"` pair kept
literal. -/
theorem C10_url_decode_amended_witness :
    urlDecodeStr (pctEncode "abc".data) = "abc".data ∧
    url_decode [52, 49] = ['4', '1'] ∧
    url_decode [37, 52, 49] = [Char.ofNat 65] ∧
    url_decode [37, 71, 48] = ['%', 'G', '0'] :=
  ⟨(C10_url_decode_amended "abc".data [] 0 52 49 65).1 (by decide),
   by decide,
   by rw [(C10_url_decode_amended "abc".data [] 0 52 49 65).2.2.1 (by decide)]; rfl,
   by rw [(C10_url_decode_amended "abc".data [] 0 71 48 0).2.2.2.1 (by decide)]; rfl⟩

end FlipTools
